import Mathlib

/-!
Shallow embedding of the `bg3_save_cleaner` save-retention pipeline
(`src/main.rs`, `src/saves.rs`, `src/save_information.rs`,
`src/program_errors.rs`).

Rust strings are modelled through their character lists (`String.data`).
The folder names handled by the program are ASCII (the directory scan
filters non-ASCII names), but the embedding keeps the byte-level
behaviour of `str::find` visible where it matters: `str::find` returns a
BYTE index while `chars().take(n)` counts CHARS, so the two agree only
on ASCII prefixes.  `HashMap<String, Saves>` is modelled as an
association list with the `entry(..).or_insert_with(..)` upsert
semantics; the claims never depend on cross-key iteration order, which
a `HashMap` leaves unspecified.
-/

/-- Modelled from the spec: the `SaveType` enum lives in `save_type.rs`,
which is not part of the provided sources; the spec's data model fixes it
as `enum\x7bQuick, Auto, Unrecognized\x7d` and every use in `main.rs`
matches exactly these three constructors. -/
inductive SaveType where
  | Quick
  | Auto
  | Unrecognized
  deriving DecidableEq, Repr

/-- Embedding of `ProgramError` from `src/program_errors.rs` (only the
constructors reachable from the pure pipeline carry weight here). -/
inductive ProgramError where
  | NameNotDetected (msg : String)
  | CannotReadDirectory (msg : String)
  | NotEnoughUnderscores (msg : String)
  | StringNotNumber (msg : String)
  | AsciiErrorInFileName (msg : String)
  | NoPath (msg : String)
  | FailedToDelete (msg : String)
  | FailedToReadDir (msg : String)
  deriving DecidableEq, Repr

/-- Embedding of `SaveInformation` from `src/save_information.rs`.
`save_number` is a `u16` in Rust; the parser below only ever produces
values `≤ 65535`, so it is carried as a `Nat`. -/
structure SaveInformation where
  file_name : String
  character_name : String
  save_type : SaveType
  save_number : Nat
  deriving DecidableEq, Repr

/-- Embedding of `Saves` from `src/saves.rs`. -/
structure Saves where
  quick_saves : List SaveInformation
  auto_saves : List SaveInformation
  deriving DecidableEq, Repr

/-- Embedding of `Saves::new`. -/
def Saves.new : Saves := ⟨[], []⟩

/-- Rust `u8::to_ascii_lowercase` lifted to chars: ASCII uppercase
letters are shifted to lowercase, every other char is unchanged. -/
def toAsciiLower (c : Char) : Char :=
  if 'A' ≤ c ∧ c ≤ 'Z' then Char.ofNat (c.toNat + 32) else c

/-- Contiguous-substring test on char lists, modelling `str::contains`
for an ASCII needle (an ASCII byte match in valid UTF-8 always falls on
char boundaries, so byte-level and char-level occurrence coincide). -/
def containsSub (pat : List Char) : List Char → Bool
  | [] => pat.isEmpty
  | c :: rest => pat.isPrefixOf (c :: rest) || containsSub pat rest

/-- Embedding of `save_type` (`src/main.rs:112-120`): case-insensitive
substring match, `"quicksave"` first, then `"autosave"`, else
`Unrecognized`. -/
def save_type (folder_name : String) : SaveType :=
  if containsSub "quicksave".data (folder_name.data.map toAsciiLower) then
    SaveType.Quick
  else if containsSub "autosave".data (folder_name.data.map toAsciiLower) then
    SaveType.Auto
  else
    SaveType.Unrecognized

/-- Byte index of the first occurrence of `c`, modelling Rust
`str::find(char)`: the index counts UTF-8 BYTES of the chars before the
match, not chars. -/
def findByteIdx (c : Char) : List Char → Option Nat
  | [] => none
  | x :: rest =>
    if x = c then some 0 else (findByteIdx c rest).map (· + x.utf8Size)

/-- Embedding of `character_name` (`src/main.rs:122-130`):
`find('-')` (byte index), keep it only when positive, then collect that
many CHARS from the front; otherwise `NameNotDetected`. -/
def character_name (folder_name : String) : Except ProgramError String :=
  match findByteIdx '-' folder_name.data with
  | some index =>
    if 0 < index then Except.ok ⟨folder_name.data.take index⟩
    else Except.error (ProgramError.NameNotDetected "Could not detect character name")
  | none => Except.error (ProgramError.NameNotDetected "Could not detect character name")

/-- Rust `split('_')` on char lists: every separator produces a cut, the
result is never empty and keeps empty segments
(`"" ↦ [""]`, `"a__b" ↦ ["a", "", "b"]`). -/
def splitOnChar (c : Char) : List Char → List (List Char)
  | [] => [[]]
  | x :: rest =>
    if x = c then [] :: splitOnChar c rest
    else
      match splitOnChar c rest with
      | [] => [[x]]
      | seg :: segs => (x :: seg) :: segs

/-- Digit-by-digit accumulator of Rust `u16::from_str`: a non-digit char
stops with `InvalidDigit`, an accumulated value above `u16::MAX` stops
with `PosOverflow`. -/
def parseU16Core : List Char → Nat → Except String Nat
  | [], acc => Except.ok acc
  | c :: rest, acc =>
    if c.isDigit then
      let acc' := acc * 10 + (c.toNat - 48)
      if acc' ≤ 65535 then parseU16Core rest acc'
      else Except.error "number too large to fit in target type"
    else Except.error "invalid digit found in string"

/-- Sign handling of Rust `from_str_radix` on an unsigned type: one
leading `+` is stripped; any other first char (a leading `-` included)
is left for the digit loop, where it fails as an invalid digit. -/
def stripPlus (l : List Char) : List Char :=
  if l.head? = some '+' then l.tail else l

/-- Embedding of `str::parse::<u16>`: empty input is `Empty`, one
optional leading `+` sign is accepted (Rust `from_str_radix` strips it),
a sign with no digits after it is `InvalidDigit`. -/
def parseU16 (s : List Char) : Except String Nat :=
  if s.isEmpty then Except.error "cannot parse integer from empty string"
  else if (stripPlus s).isEmpty then Except.error "invalid digit found in string"
  else parseU16Core (stripPlus s) 0

/-- Embedding of `save_number` (`src/main.rs:132-153`): split on `_`,
`NotEnoughUnderscores` when at most one segment results, otherwise parse
the last segment as `u16`, mapping parse failures to
`StringNotNumber`. -/
def save_number (folder_name : String) : Except ProgramError Nat :=
  let parts := splitOnChar '_' folder_name.data
  if parts.length ≤ 1 then
    Except.error (ProgramError.NotEnoughUnderscores
      "Did not find the correct number of underscores. Cannot continue with this save.")
  else
    match parts.getLast? with
    | none => Except.error (ProgramError.NotEnoughUnderscores "Could not find any elements")
    | some seg =>
      match parseU16 seg with
      | Except.ok n => Except.ok n
      | Except.error e => Except.error (ProgramError.StringNotNumber e)

/-- Embedding of `package_details` (`src/main.rs:99-110`): the `?` on
`save_number` runs before the `?` on `character_name`, then the total
`save_type` classification. -/
def package_details (file_name : String) : Except ProgramError SaveInformation := do
  let parse_number ← save_number file_name
  let characters_name ← character_name file_name
  let s_type := save_type file_name
  Except.ok ⟨file_name, characters_name, s_type, parse_number⟩

/-- Embedding of the directory-scan filter (`src/main.rs:60-63`): keep
only non-empty pure-ASCII names. -/
def dirEntryEligible (name : String) : Bool :=
  !name.data.isEmpty && name.data.all fun c => c.toNat ≤ 127

/-- Embedding of `insert_save` (`src/main.rs:174-180`): `Vec::push`
appends at the end of the category list; `Unrecognized` is dropped. -/
def insert_save (save_by_type : Saves) (save_information : SaveInformation) : Saves :=
  match save_information.save_type with
  | SaveType.Quick =>
    { save_by_type with quick_saves := save_by_type.quick_saves ++ [save_information] }
  | SaveType.Auto =>
    { save_by_type with auto_saves := save_by_type.auto_saves ++ [save_information] }
  | SaveType.Unrecognized => save_by_type

/-- The `HashMap<String, Saves>` is modelled as an association list;
this is `entry(key).or_insert_with(Saves::new)` followed by an update:
the first entry with the key is replaced by `f` of its value, a missing
key gets the entry `(key, f Saves.new)`. -/
def upsert (key : String) (f : Saves → Saves) : List (String × Saves) → List (String × Saves)
  | [] => [(key, f Saves.new)]
  | (k, v) :: rest =>
    if k = key then (k, f v) :: rest else (k, v) :: upsert key f rest

/-- Lookup with the `or_insert_with(Saves::new)` default. -/
def lookupD (key : String) : List (String × Saves) → Saves
  | [] => Saves.new
  | (k, v) :: rest => if k = key then v else lookupD key rest

/-- Embedding of `group_by_character` (`src/main.rs:161-172`). -/
def group_by_character (map : List (String × Saves)) (save_information : SaveInformation) :
    List (String × Saves) :=
  upsert save_information.character_name (fun s => insert_save s save_information) map

/-- Embedding of `group_saves` (`src/main.rs:155-159`): a left fold of
`group_by_character` from the empty map. -/
def group_saves (saves : List SaveInformation) : List (String × Saves) :=
  saves.foldl group_by_character []

/-- Stable insertion into a descending run: the new element goes in
front of the first element whose `save_number` is `≤` its own, hence in
front of every equal element. -/
def insertDesc (x : SaveInformation) : List SaveInformation → List SaveInformation
  | [] => [x]
  | y :: rest =>
    if y.save_number ≤ x.save_number then x :: y :: rest else y :: insertDesc x rest

/-- Stable descending insertion sort.  Rust `sort_by` with the
comparator `save_b.save_number.partial_cmp(&save_a.save_number).unwrap()`
(`u16` comparison is total, so the `unwrap` never fires) is a stable
sort under a total preorder; the stable sorted permutation of a list is
unique, so this insertion sort — which keeps earlier elements in front
of equal later ones — computes the same list. -/
def sortDesc : List SaveInformation → List SaveInformation
  | [] => []
  | x :: rest => insertDesc x (sortDesc rest)

/-- Embedding of `sort_map_saves` (`src/main.rs:182-194`): each group's
`quick_saves` and `auto_saves` are sorted descending by `save_number`,
independently; keys and entry order are untouched. -/
def sort_map_saves (map : List (String × Saves)) : List (String × Saves) :=
  map.map fun kv => (kv.1, ⟨sortDesc kv.2.quick_saves, sortDesc kv.2.auto_saves⟩)

/-- Embedding of `deletable_saves` (`src/main.rs:216-218`):
`skip(number_to_preserve)` is `List.drop`. -/
def deletable_saves (saves : List SaveInformation) (number_to_preserve : Nat) :
    List SaveInformation :=
  saves.drop number_to_preserve

/-- Embedding of `get_delete_vec` (`src/main.rs:196-214`): fold over the
map entries, chaining the existing accumulator with the quick-save
deletables and then the auto-save deletables of each character. -/
def get_delete_vec (map : List (String × Saves)) (number_to_preserve : Nat) :
    List SaveInformation :=
  map.foldl
    (fun deletion_saves kv =>
      deletion_saves ++
        (deletable_saves kv.2.quick_saves number_to_preserve ++
          deletable_saves kv.2.auto_saves number_to_preserve))
    []

/-- Rust `str::trim` restricted to the whitespace the confirmation
boundary can see (`Char.isWhitespace` covers the ASCII whitespace of a
terminal line; Rust trims the full Unicode White_Space set, which agrees
on ASCII input). -/
def rustTrim (s : String) : String :=
  ⟨((s.data.dropWhile Char.isWhitespace).reverse.dropWhile Char.isWhitespace).reverse⟩

/-- Rust `str::eq_ignore_ascii_case`: bytewise equality after ASCII
lowercasing, which on valid UTF-8 is charwise equality after
`toAsciiLower`. -/
def eqIgnoreAsciiCase (a b : String) : Bool :=
  a.data.map toAsciiLower = b.data.map toAsciiLower

/-- Embedding of `delete` (`src/main.rs:239-262`).  The filesystem sink
(path resolution, removal of the folder's children, removal of the
folder) is the effectful boundary the spec excludes from the core; it is
injected as `remove_save_folder`, applied to each candidate's
`file_name` in order, short-circuiting on the first error exactly like
`collect::<Result<Vec<()>, ProgramError>>()`. -/
def delete (deletable : List SaveInformation) (user_input : String)
    (remove_save_folder : String → Except ProgramError Unit) :
    Except ProgramError (List Unit) :=
  if !eqIgnoreAsciiCase user_input "y" then Except.ok []
  else deletable.mapM fun save_information => remove_save_folder save_information.file_name

/-! ### Supporting lemmas -/

instance {ε α : Type} [DecidableEq ε] [DecidableEq α] : DecidableEq (Except ε α) := fun a b =>
  match a, b with
  | Except.ok x, Except.ok y => decidable_of_iff (x = y) (by simp)
  | Except.ok _, Except.error _ => isFalse (by simp)
  | Except.error _, Except.ok _ => isFalse (by simp)
  | Except.error x, Except.error y => decidable_of_iff (x = y) (by simp)

theorem utf8Size_eq_one (c : Char) (h : c.toNat ≤ 127) : c.utf8Size = 1 := by
  unfold Char.utf8Size
  have hle : c.val ≤ UInt32.ofNatCore 127 (by norm_num) := by
    rw [UInt32.le_def]
    show c.val.toNat ≤ (UInt32.ofNatCore 127 (by norm_num)).toNat
    exact h.trans (by rfl)
  rw [if_pos hle]

theorem utf8Size_pos (c : Char) : 0 < c.utf8Size := by
  unfold Char.utf8Size
  dsimp only
  split
  · norm_num
  · split
    · norm_num
    · split <;> norm_num

theorem findByteIdx_eq_none_iff (c : Char) (l : List Char) :
    findByteIdx c l = none ↔ c ∉ l := by
  induction l with
  | nil => simp [findByteIdx]
  | cons x rest ih =>
    by_cases hx : x = c
    · simp [findByteIdx, hx]
    · simp [findByteIdx, hx, ih, Ne.symm hx]

theorem findByteIdx_eq_zero_iff (c : Char) (l : List Char) :
    findByteIdx c l = some 0 ↔ l.head? = some c := by
  cases l with
  | nil => simp [findByteIdx]
  | cons x rest =>
    by_cases hx : x = c
    · simp [findByteIdx, hx]
    · simp only [findByteIdx, if_neg hx, List.head?_cons, Option.some.injEq]
      constructor
      · intro h
        rcases Option.map_eq_some'.mp h with ⟨k, _, hk⟩
        have := utf8Size_pos x
        omega
      · intro h
        exact absurd h.symm (fun hcx => hx hcx.symm)

theorem ascii_find_take (l : List Char) (hascii : ∀ x ∈ l, x.toNat ≤ 127)
    (hmem : '-' ∈ l) :
    ∃ k, findByteIdx '-' l = some k ∧
      l.take k = l.takeWhile (fun c => c ≠ '-') := by
  induction l with
  | nil => cases hmem
  | cons x rest ih =>
    by_cases hx : x = '-'
    · exact ⟨0, by simp [findByteIdx, hx], by simp [hx, List.takeWhile]⟩
    · have hmem' : '-' ∈ rest := by
        cases hmem with
        | head => exact absurd rfl hx
        | tail _ h => exact h
      rcases ih (fun y hy => hascii y (List.mem_cons_of_mem x hy)) hmem' with ⟨k, hk, htake⟩
      refine ⟨k + 1, ?_, ?_⟩
      · simp only [findByteIdx, if_neg hx, hk, Option.map_some']
        rw [utf8Size_eq_one x (hascii x (List.mem_cons_self x rest))]
      · simp [List.takeWhile, hx, htake]

theorem splitOnChar_eq_single (c : Char) (l : List Char) (h : c ∉ l) :
    splitOnChar c l = [l] := by
  induction l with
  | nil => rfl
  | cons x rest ih =>
    have hx : ¬x = c := fun hxc => h (hxc ▸ List.mem_cons_self x rest)
    have hrest : c ∉ rest := fun hr => h (List.mem_cons_of_mem x hr)
    simp [splitOnChar, hx, ih hrest]

/-- Decimal accumulator value of a digit list, seeded with `acc`. -/
def digitsVal (acc : Nat) (l : List Char) : Nat :=
  l.foldl (fun a c => a * 10 + (c.toNat - 48)) acc

theorem le_digitsVal (l : List Char) : ∀ acc : Nat, acc ≤ digitsVal acc l := by
  induction l with
  | nil => intro acc; exact Nat.le_refl acc
  | cons c rest ih =>
    intro acc
    calc acc ≤ acc * 10 + (c.toNat - 48) := by omega
    _ ≤ digitsVal (acc * 10 + (c.toNat - 48)) rest := ih _

theorem parseU16Core_digits (l : List Char) :
    ∀ acc : Nat, acc ≤ 65535 → l.all Char.isDigit = true →
      parseU16Core l acc =
        if digitsVal acc l ≤ 65535 then Except.ok (digitsVal acc l)
        else Except.error "number too large to fit in target type" := by
  induction l with
  | nil => intro acc hacc _; simp [parseU16Core, digitsVal, hacc]
  | cons c rest ih =>
    intro acc hacc hall
    have hc : c.isDigit = true := by
      simp only [List.all_cons, Bool.and_eq_true] at hall
      exact hall.1
    have hrest : rest.all Char.isDigit = true := by
      simp only [List.all_cons, Bool.and_eq_true] at hall
      exact hall.2
    have hval : digitsVal acc (c :: rest) = digitsVal (acc * 10 + (c.toNat - 48)) rest := rfl
    by_cases hacc' : acc * 10 + (c.toNat - 48) ≤ 65535
    · rw [show parseU16Core (c :: rest) acc = parseU16Core rest (acc * 10 + (c.toNat - 48)) by
        simp [parseU16Core, hc, hacc']]
      rw [ih _ hacc' hrest, hval]
    · have hbig : ¬digitsVal acc (c :: rest) ≤ 65535 := by
        rw [hval]
        have := le_digitsVal rest (acc * 10 + (c.toNat - 48))
        omega
      rw [if_neg hbig]
      simp [parseU16Core, hc, hacc']

theorem parseU16Core_ok_digits (l : List Char) :
    ∀ acc v, parseU16Core l acc = Except.ok v → l.all Char.isDigit = true := by
  induction l with
  | nil => intros; rfl
  | cons c rest ih =>
    intro acc v h
    by_cases hc : c.isDigit
    · by_cases hacc' : acc * 10 + (c.toNat - 48) ≤ 65535
      · have := ih (acc * 10 + (c.toNat - 48)) v (by
          rw [show parseU16Core rest (acc * 10 + (c.toNat - 48)) = parseU16Core (c :: rest) acc by
            simp [parseU16Core, hc, hacc']]
          exact h)
        simp [hc, this]
      · simp [parseU16Core, hc, hacc'] at h
    · simp [parseU16Core, hc] at h

/-! ### Claim theorems: name parser -/

/-- C6: category detection is total (a `SaveType` is always returned) and
substring-based — a name containing "quicksave" in any case classifies
`Quick`; else one containing "autosave" classifies `Auto`; else
`Unrecognized`; a name containing both substrings classifies `Quick`. -/
theorem save_type_substring_spec : ∀ name : String,
    (save_type name = SaveType.Quick ↔
      containsSub "quicksave".data (name.data.map toAsciiLower) = true) ∧
    (save_type name = SaveType.Auto ↔
      containsSub "quicksave".data (name.data.map toAsciiLower) = false ∧
      containsSub "autosave".data (name.data.map toAsciiLower) = true) ∧
    (save_type name = SaveType.Unrecognized ↔
      containsSub "quicksave".data (name.data.map toAsciiLower) = false ∧
      containsSub "autosave".data (name.data.map toAsciiLower) = false) ∧
    save_type "AutoSaveQuickSave_x_5" = SaveType.Quick := by
  intro name
  refine ⟨?_, ?_, ?_, by decide⟩ <;>
    by_cases hq : containsSub "quicksave".data (name.data.map toAsciiLower) <;>
    by_cases ha : containsSub "autosave".data (name.data.map toAsciiLower) <;>
    simp [save_type, hq, ha]

/-- C3: when both the sequence-number extraction and the character-name
extraction fail, `package_details` surfaces the sequence-number failure,
because `save_number` runs first; for a name with no underscore at all
that failure is `NotEnoughUnderscores`. -/
theorem package_details_error_precedence (name : String) (e e' : ProgramError)
    (h1 : save_number name = Except.error e)
    (h2 : character_name name = Except.error e') :
    package_details name = Except.error e ∧
      ('_' ∉ name.data →
        e = ProgramError.NotEnoughUnderscores
          "Did not find the correct number of underscores. Cannot continue with this save.") := by
  constructor
  · rw [package_details, h1]
    rfl
  · intro hnot
    have hsplit := splitOnChar_eq_single '_' name.data hnot
    simp [save_number, hsplit] at h1
    exact h1.symm

/-- Witness for C3 at the concrete both-failing name `"abc"` (neither an
underscore nor a dash). -/
theorem package_details_error_precedence_witness :
    package_details "abc" = Except.error (ProgramError.NotEnoughUnderscores
      "Did not find the correct number of underscores. Cannot continue with this save.") := by
  have h := package_details_error_precedence "abc"
    (ProgramError.NotEnoughUnderscores
      "Did not find the correct number of underscores. Cannot continue with this save.")
    (ProgramError.NameNotDetected "Could not detect character name")
    (by decide) (by decide)
  exact h.1

/-- C4 counterexample: the last `_`-segment of `"a_+5"` contains the
non-digit char `+`, yet `save_number` succeeds with 5 — Rust
`u16::from_str` accepts one leading `+` sign, so "non-digit content
always fails with StringNotNumber" is false as stated. -/
theorem save_number_plus_sign_cex :
    (splitOnChar '_' (String.data "a_+5")).getLastD [] = String.data "+5" ∧
    ('+' ∈ String.data "+5" ∧ ('+').isDigit = false) ∧
    save_number "a_+5" = Except.ok 5 := by
  refine ⟨by decide, ⟨by decide, by decide⟩, by decide⟩

/-- C4 amended: splitting on `_` with fewer than 2 segments fails with
`NotEnoughUnderscores`; otherwise the last segment is parsed as a `u16`
with failures mapped to `StringNotNumber`; 0 and 65535 round-trip;
overflow fails; content that is not all digits after stripping one
optional leading `+` sign fails; a leading minus sign fails. -/
theorem save_number_spec_amended :
    (∀ name : String, (splitOnChar '_' name.data).length ≤ 1 →
        save_number name = Except.error (ProgramError.NotEnoughUnderscores
          "Did not find the correct number of underscores. Cannot continue with this save.")) ∧
    (∀ name : String, 1 < (splitOnChar '_' name.data).length →
        save_number name =
          match parseU16 ((splitOnChar '_' name.data).getLastD []) with
          | Except.ok n => Except.ok n
          | Except.error e => Except.error (ProgramError.StringNotNumber e)) ∧
    (save_number "a_0" = Except.ok 0 ∧ save_number "a_65535" = Except.ok 65535) ∧
    (∀ l : List Char, l ≠ [] → l.all Char.isDigit = true → 65535 < digitsVal 0 l →
        parseU16 l = Except.error "number too large to fit in target type") ∧
    (∀ l : List Char, (stripPlus l).all Char.isDigit = false →
        ∃ m, parseU16 l = Except.error m) ∧
    (∀ l : List Char, parseU16 ('-' :: l) = Except.error "invalid digit found in string") := by
  refine ⟨?_, ?_, ⟨by decide, by decide⟩, ?_, ?_, ?_⟩
  · intro name h
    simp [save_number, h]
  · intro name h
    have hne : splitOnChar '_' name.data ≠ [] := by
      intro hnil
      rw [hnil] at h
      simp at h
    rw [save_number]
    simp only [if_neg (by omega : ¬(splitOnChar '_' name.data).length ≤ 1)]
    rw [List.getLast?_eq_getLast _ hne, List.getLastD_eq_getLast?, List.getLast?_eq_getLast _ hne]
    rfl
  · intro l hne hall hbig
    have hhead : l.head? ≠ some '+' := by
      intro hh
      cases l with
      | nil => simp at hh
      | cons c rest =>
        simp at hh
        rw [hh] at hall
        simp [List.all_cons] at hall
    have hstrip : stripPlus l = l := by simp [stripPlus, hhead]
    rw [parseU16, if_neg (by simp [hne]), hstrip, if_neg (by simp [hne]),
      parseU16Core_digits l 0 (by omega) hall, if_neg (by omega)]
  · intro l hbad
    by_cases hne : l = []
    · subst hne
      simp [stripPlus] at hbad
    · by_cases hse : (stripPlus l).isEmpty
      · exact ⟨"invalid digit found in string", by rw [parseU16, if_neg (by simp [hne]), if_pos hse]⟩
      · rw [parseU16, if_neg (by simp [hne]), if_neg hse]
        cases hres : parseU16Core (stripPlus l) 0 with
        | ok v => exact absurd (parseU16Core_ok_digits _ _ _ hres) (by simp [hbad])
        | error m => exact ⟨m, rfl⟩
  · intro l
    have hstrip : stripPlus ('-' :: l) = '-' :: l := by simp [stripPlus]
    rw [parseU16, if_neg (by simp), hstrip, if_neg (by simp)]
    simp [parseU16Core]

/-- Witness for C4's amended statement at concrete inputs: a name with
no underscore, an overflowing numeral, a non-numeric segment, and a
negative numeral. -/
theorem save_number_spec_amended_witness :
    save_number "nounderscore" = Except.error (ProgramError.NotEnoughUnderscores
      "Did not find the correct number of underscores. Cannot continue with this save.") ∧
    parseU16 (String.data "65536") = Except.error "number too large to fit in target type" ∧
    (∃ m, parseU16 (String.data "12x") = Except.error m) ∧
    parseU16 ('-' :: String.data "5") = Except.error "invalid digit found in string" := by
  obtain ⟨h1, _, _, h4, h5, h6⟩ := save_number_spec_amended
  exact ⟨h1 "nounderscore" (by decide), h4 (String.data "65536") (by decide) (by decide) (by decide),
    h5 (String.data "12x") (by decide), h6 (String.data "5")⟩

/-- C5 counterexample: on the non-ASCII name `"Ä-1"` the extraction
succeeds but returns `"Ä-"`, not the characters before the first `-`
(which are `"Ä"`): `str::find` yields the BYTE index 2 of the dash while
`chars().take(2)` collects 2 CHARS, so the dash itself is included. -/
theorem character_name_nonascii_cex :
    character_name "Ä-1" = Except.ok "Ä-" ∧
    (String.data "Ä-1").takeWhile (fun c => c ≠ '-') = String.data "Ä" ∧
    ("Ä-" : String) ≠ "Ä" := by
  refine ⟨by decide, by decide, by decide⟩

/-- C5 amended: for EVERY name, character-name extraction fails with
`NameNotDetected` exactly when no `-` is present or the first `-` is at
position 0 (a `-` sits at byte position 0 exactly when it is the first
char); for every pure-ASCII name (byte and char positions coincide) it
otherwise returns every character before the first `-`. -/
theorem character_name_spec (name : String) :
    (('-' ∉ name.data ∨ name.data.head? = some '-') →
        character_name name =
          Except.error (ProgramError.NameNotDetected "Could not detect character name")) ∧
    (character_name name =
          Except.error (ProgramError.NameNotDetected "Could not detect character name") →
        ('-' ∉ name.data ∨ name.data.head? = some '-')) ∧
    (name.data.all (fun c => c.toNat ≤ 127) = true →
      '-' ∈ name.data → name.data.head? ≠ some '-' →
        character_name name = Except.ok ⟨name.data.takeWhile (fun c => c ≠ '-')⟩) := by
  refine ⟨?_, ?_, ?_⟩
  · rintro (hnone | hzero)
    · rw [character_name, (findByteIdx_eq_none_iff '-' name.data).mpr hnone]
    · rw [character_name, (findByteIdx_eq_zero_iff '-' name.data).mpr hzero]
      simp
  · intro herr
    cases hidx : findByteIdx '-' name.data with
    | none => exact Or.inl ((findByteIdx_eq_none_iff '-' name.data).mp hidx)
    | some k =>
      by_cases hk : 0 < k
      · rw [character_name, hidx] at herr
        simp [if_pos hk] at herr
      · have hk0 : k = 0 := by omega
        subst hk0
        exact Or.inr ((findByteIdx_eq_zero_iff '-' name.data).mp hidx)
  · intro hascii hmem hhead
    have hall : ∀ x ∈ name.data, x.toNat ≤ 127 := by
      intro x hx
      exact of_decide_eq_true (List.all_eq_true.mp hascii x hx)
    obtain ⟨k, hk, htake⟩ := ascii_find_take name.data hall hmem
    have hkpos : 0 < k := by
      rcases Nat.eq_zero_or_pos k with h0 | hpos
      · rw [h0] at hk
        exact absurd ((findByteIdx_eq_zero_iff '-' name.data).mp hk) hhead
      · exact hpos
    rw [character_name, hk]
    simp only [if_pos hkpos, htake]

/-- Witness for C5's amended statement: the concrete ASCII name
`"A_b c-1_2"` (underscore and space in the character name) succeeds, and
the failure clause is exercised on the non-ASCII names `"Ä"` (no dash)
and `"-Ä"` (dash at position 0). -/
theorem character_name_spec_witness :
    character_name "A_b c-1_2" = Except.ok "A_b c" ∧
    character_name "Ä" =
      Except.error (ProgramError.NameNotDetected "Could not detect character name") ∧
    character_name "-Ä" =
      Except.error (ProgramError.NameNotDetected "Could not detect character name") := by
  refine ⟨?_, ?_, ?_⟩
  · have h := (character_name_spec "A_b c-1_2").2.2 (by decide) (by decide) (by decide)
    exact h.trans (by decide)
  · exact (character_name_spec "Ä").1 (Or.inl (by decide))
  · exact (character_name_spec "-Ä").1 (Or.inr (by decide))

/-- C9 counterexample: the non-ASCII name `"Ä-1_a_5"` is rejected by the
directory-scan filter, but `package_details` applied to it directly does
NOT return an error: it produces a full record (with the dash leaked
into the character name). -/
theorem package_details_nonascii_cex :
    dirEntryEligible "Ä-1_a_5" = false ∧
    package_details "Ä-1_a_5" =
      Except.ok ⟨"Ä-1_a_5", "Ä-", SaveType.Unrecognized, 5⟩ := by
  refine ⟨by decide, by decide⟩

/-- C9 amended: an empty name never parses (it fails with
`NotEnoughUnderscores`) and is also excluded by the directory-scan
filter; non-ASCII names are excluded by that same filter before parsing,
though `package_details` itself can succeed on them. -/
theorem package_details_empty_spec (name : String) (h : name.data = []) :
    package_details name =
      Except.error (ProgramError.NotEnoughUnderscores
        "Did not find the correct number of underscores. Cannot continue with this save.") ∧
    dirEntryEligible name = false := by
  have hname : name = "" := by
    cases name
    simp only at h
    rw [h]
  subst hname
  exact ⟨by decide, by decide⟩

/-- Witness for C9's amended statement at the empty name. -/
theorem package_details_empty_spec_witness :
    package_details "" =
      Except.error (ProgramError.NotEnoughUnderscores
        "Did not find the correct number of underscores. Cannot continue with this save.") := by
  exact (package_details_empty_spec "" rfl).1

/-! ### Supporting lemmas: grouping -/

/-- Boolean predicate: a record belonging to character `c` with category
`Quick`. -/
def isQuickOf (c : String) (r : SaveInformation) : Bool :=
  decide (r.character_name = c ∧ r.save_type = SaveType.Quick)

/-- Boolean predicate: a record belonging to character `c` with category
`Auto`. -/
def isAutoOf (c : String) (r : SaveInformation) : Bool :=
  decide (r.character_name = c ∧ r.save_type = SaveType.Auto)

theorem lookupD_upsert_self (k : String) (f : Saves → Saves) (m : List (String × Saves)) :
    lookupD k (upsert k f m) = f (lookupD k m) := by
  induction m with
  | nil => simp [upsert, lookupD]
  | cons kv rest ih =>
    obtain ⟨k', v⟩ := kv
    by_cases hk : k' = k
    · simp [upsert, lookupD, hk]
    · simp [upsert, lookupD, hk, ih]

theorem lookupD_upsert_ne (k c : String) (f : Saves → Saves) (m : List (String × Saves))
    (h : c ≠ k) : lookupD c (upsert k f m) = lookupD c m := by
  have hkc : ¬k = c := fun he => h he.symm
  induction m with
  | nil => simp [upsert, lookupD, hkc]
  | cons kv rest ih =>
    obtain ⟨k', v⟩ := kv
    by_cases hk : k' = k
    · subst hk
      simp [upsert, lookupD, hkc]
    · simp [upsert, lookupD, hk, ih]

theorem lookupD_foldl_group (l : List SaveInformation) :
    ∀ (m : List (String × Saves)) (c : String),
      lookupD c (l.foldl group_by_character m) =
        ⟨(lookupD c m).quick_saves ++ l.filter (isQuickOf c),
         (lookupD c m).auto_saves ++ l.filter (isAutoOf c)⟩ := by
  induction l with
  | nil => intro m c; simp
  | cons r rest ih =>
    intro m c
    rw [List.foldl_cons, ih]
    unfold group_by_character
    by_cases hc : c = r.character_name
    · subst hc
      rw [lookupD_upsert_self]
      cases hst : r.save_type with
      | Quick =>
        have hq : isQuickOf r.character_name r = true := by simp [isQuickOf, hst]
        have ha : isAutoOf r.character_name r = false := by simp [isAutoOf, hst]
        simp [insert_save, hst, List.filter_cons, hq, ha]
      | Auto =>
        have hq : isQuickOf r.character_name r = false := by simp [isQuickOf, hst]
        have ha : isAutoOf r.character_name r = true := by simp [isAutoOf, hst]
        simp [insert_save, hst, List.filter_cons, hq, ha]
      | Unrecognized =>
        have hq : isQuickOf r.character_name r = false := by simp [isQuickOf, hst]
        have ha : isAutoOf r.character_name r = false := by simp [isAutoOf, hst]
        simp [insert_save, hst, List.filter_cons, hq, ha]
    · rw [lookupD_upsert_ne _ _ _ _ hc]
      have hcc : ¬r.character_name = c := fun h => hc h.symm
      have hq : isQuickOf c r = false := by simp [isQuickOf, hcc]
      have ha : isAutoOf c r = false := by simp [isAutoOf, hcc]
      simp [List.filter_cons, hq, ha]

theorem mem_upsert (k : String) (f : Saves → Saves) (m : List (String × Saves)) :
    ∀ e ∈ upsert k f m, e ∈ m ∨ e = (k, f (lookupD k m)) := by
  induction m with
  | nil =>
    intro e he
    simp [upsert] at he
    simp [lookupD, he]
  | cons kv rest ih =>
    obtain ⟨k', v⟩ := kv
    intro e he
    by_cases hk : k' = k
    · subst hk
      simp [upsert, lookupD] at he ⊢
      rcases he with he | he
      · simp [he]
      · simp [he]
    · simp [upsert, hk] at he
      rcases he with he | he
      · simp [he]
      · rcases ih e he with hmem | heq
        · simp [hmem]
        · rw [heq]
          simp [lookupD, hk]

/-- The record-level invariant carried through grouping: each entry only
holds records of its own character, in the list of their own category. -/
def groupInv (m : List (String × Saves)) : Prop :=
  ∀ e ∈ m, ∀ r : SaveInformation,
    (r ∈ e.2.quick_saves → r.save_type = SaveType.Quick ∧ r.character_name = e.1) ∧
    (r ∈ e.2.auto_saves → r.save_type = SaveType.Auto ∧ r.character_name = e.1)

theorem groupInv_lookupD (m : List (String × Saves)) (hm : groupInv m) (c : String) :
    ∀ r : SaveInformation,
      (r ∈ (lookupD c m).quick_saves → r.save_type = SaveType.Quick ∧ r.character_name = c) ∧
      (r ∈ (lookupD c m).auto_saves → r.save_type = SaveType.Auto ∧ r.character_name = c) := by
  induction m with
  | nil => intro r; simp [lookupD, Saves.new]
  | cons kv rest ih =>
    obtain ⟨k, v⟩ := kv
    intro r
    by_cases hk : k = c
    · subst hk
      simpa [lookupD] using hm (k, v) (List.mem_cons_self _ _) r
    · simp only [lookupD, if_neg hk]
      exact ih (fun e he => hm e (List.mem_cons_of_mem _ he)) r

theorem groupInv_foldl (l : List SaveInformation) :
    ∀ m : List (String × Saves), groupInv m → groupInv (l.foldl group_by_character m) := by
  induction l with
  | nil => intro m hm; exact hm
  | cons s rest ih =>
    intro m hm
    rw [List.foldl_cons]
    refine ih _ ?_
    intro e he r
    rcases mem_upsert _ _ _ e he with hmem | heq
    · exact hm e hmem r
    · subst heq
      have hbase := groupInv_lookupD m hm s.character_name r
      cases hst : s.save_type with
      | Quick =>
        simp only [insert_save, hst]
        constructor
        · intro hr
          rcases List.mem_append.mp hr with hr | hr
          · exact hbase.1 hr
          · rw [List.mem_singleton.mp hr]
            exact ⟨hst, rfl⟩
        · exact hbase.2
      | Auto =>
        simp only [insert_save, hst]
        constructor
        · exact hbase.1
        · intro hr
          rcases List.mem_append.mp hr with hr | hr
          · exact hbase.2 hr
          · rw [List.mem_singleton.mp hr]
            exact ⟨hst, rfl⟩
      | Unrecognized =>
        simp only [insert_save, hst]
        exact hbase

/-! ### Supporting lemmas: sorting -/

theorem insertDesc_perm (x : SaveInformation) (l : List SaveInformation) :
    List.Perm (insertDesc x l) (x :: l) := by
  induction l with
  | nil => exact List.Perm.refl _
  | cons y rest ih =>
    by_cases h : y.save_number ≤ x.save_number
    · simp [insertDesc, h]
    · simp only [insertDesc, if_neg h]
      exact List.Perm.trans (ih.cons y) (List.Perm.swap x y rest)

theorem sortDesc_perm (l : List SaveInformation) : List.Perm (sortDesc l) l := by
  induction l with
  | nil => exact List.Perm.refl _
  | cons x rest ih =>
    exact List.Perm.trans (insertDesc_perm x (sortDesc rest)) (ih.cons x)

theorem mem_insertDesc (x z : SaveInformation) (l : List SaveInformation) :
    z ∈ insertDesc x l ↔ z = x ∨ z ∈ l := by
  rw [(insertDesc_perm x l).mem_iff, List.mem_cons]

theorem insertDesc_pairwise (x : SaveInformation) (l : List SaveInformation)
    (h : l.Pairwise fun a b => b.save_number ≤ a.save_number) :
    (insertDesc x l).Pairwise fun a b => b.save_number ≤ a.save_number := by
  induction l with
  | nil => simp [insertDesc]
  | cons y rest ih =>
    rcases List.pairwise_cons.mp h with ⟨hy, hrest⟩
    by_cases hle : y.save_number ≤ x.save_number
    · simp only [insertDesc, if_pos hle]
      refine List.pairwise_cons.mpr ⟨?_, h⟩
      intro z hz
      rcases List.mem_cons.mp hz with hz | hz
      · rw [hz]; exact hle
      · exact (hy z hz).trans hle
    · simp only [insertDesc, if_neg hle]
      refine List.pairwise_cons.mpr ⟨?_, ih hrest⟩
      intro z hz
      rcases (mem_insertDesc x z rest).mp hz with hz | hz
      · rw [hz]; omega
      · exact hy z hz

theorem sortDesc_pairwise (l : List SaveInformation) :
    (sortDesc l).Pairwise fun a b => b.save_number ≤ a.save_number := by
  induction l with
  | nil => simp [sortDesc]
  | cons x rest ih => exact insertDesc_pairwise x (sortDesc rest) ih

theorem filter_num_insertDesc (x : SaveInformation) (n : Nat) (l : List SaveInformation) :
    (insertDesc x l).filter (fun r => r.save_number = n) =
      if x.save_number = n then x :: l.filter (fun r => r.save_number = n)
      else l.filter (fun r => r.save_number = n) := by
  induction l with
  | nil => by_cases hx : x.save_number = n <;> simp [insertDesc, List.filter, hx]
  | cons y rest ih =>
    rw [show insertDesc x (y :: rest) =
      if y.save_number ≤ x.save_number then x :: y :: rest
      else y :: insertDesc x rest from rfl]
    by_cases hle : y.save_number ≤ x.save_number
    · rw [if_pos hle]
      by_cases hx : x.save_number = n <;> by_cases hy : y.save_number = n <;>
        simp [List.filter_cons, hx, hy]
    · rw [if_neg hle, List.filter_cons, ih]
      by_cases hx : x.save_number = n
      · have hyn : ¬y.save_number = n := by omega
        simp [hx, hyn]
      · by_cases hy : y.save_number = n <;> simp [hx, hy]

theorem sortDesc_filter_num (l : List SaveInformation) (n : Nat) :
    (sortDesc l).filter (fun r => r.save_number = n) =
      l.filter (fun r => r.save_number = n) := by
  induction l with
  | nil => rfl
  | cons x rest ih =>
    by_cases hx : x.save_number = n <;>
      simp [sortDesc, filter_num_insertDesc, hx, List.filter_cons, ih]

theorem sortDesc_strict (l : List SaveInformation)
    (h : (l.map SaveInformation.save_number).Nodup) :
    (sortDesc l).Pairwise fun a b => b.save_number < a.save_number := by
  have hperm : List.Perm ((sortDesc l).map SaveInformation.save_number)
      (l.map SaveInformation.save_number) := (sortDesc_perm l).map _
  have hnd : ((sortDesc l).map SaveInformation.save_number).Nodup :=
    (hperm.nodup_iff).mpr h
  have hne : (sortDesc l).Pairwise fun a b => a.save_number ≠ b.save_number :=
    List.pairwise_map.mp hnd
  have := (sortDesc_pairwise l).and hne
  exact this.imp fun hab => by omega

/-! ### Claim theorems: grouping -/

/-- C7: grouping folds left-to-right into a table where, for every
character `c`, the quick and auto lists are exactly the input's Quick
and Auto records of that character in input order (no loss, no
duplication), and Unrecognized records appear in no group. -/
theorem group_saves_partition_spec : ∀ records : List SaveInformation,
    (∀ c : String,
      (lookupD c (group_saves records)).quick_saves = records.filter (isQuickOf c) ∧
      (lookupD c (group_saves records)).auto_saves = records.filter (isAutoOf c)) ∧
    (∀ e ∈ group_saves records, ∀ r : SaveInformation,
      (r ∈ e.2.quick_saves → r.save_type = SaveType.Quick ∧ r.character_name = e.1) ∧
      (r ∈ e.2.auto_saves → r.save_type = SaveType.Auto ∧ r.character_name = e.1)) ∧
    (∀ r : SaveInformation, r.save_type = SaveType.Unrecognized →
      ∀ e ∈ group_saves records, ¬r ∈ e.2.quick_saves ∧ ¬r ∈ e.2.auto_saves) := by
  intro records
  have hinv : groupInv (group_saves records) :=
    groupInv_foldl records [] (by intro e he; cases he)
  refine ⟨?_, hinv, ?_⟩
  · intro c
    have h := lookupD_foldl_group records [] c
    rw [group_saves, h]
    simp [lookupD, Saves.new]
  · intro r hr e he
    constructor
    · intro hmem
      have := (hinv e he r).1 hmem
      rw [this.1] at hr
      cases hr
    · intro hmem
      have := (hinv e he r).2 hmem
      rw [this.1] at hr
      cases hr

/-- Witness for C7 at a concrete mixed record list: two characters, both
categories, plus an Unrecognized record that lands in no group. -/
theorem group_saves_partition_spec_witness :
    (lookupD "Alice" (group_saves
        [⟨"Alice-1_QuickSave_2", "Alice", SaveType.Quick, 2⟩,
         ⟨"Bob-1_AutoSave_7", "Bob", SaveType.Auto, 7⟩,
         ⟨"Alice-1_AutoSave_4", "Alice", SaveType.Auto, 4⟩,
         ⟨"Alice-1_Manual_9", "Alice", SaveType.Unrecognized, 9⟩,
         ⟨"Alice-1_QuickSave_1", "Alice", SaveType.Quick, 1⟩])).quick_saves =
      [⟨"Alice-1_QuickSave_2", "Alice", SaveType.Quick, 2⟩,
       ⟨"Alice-1_QuickSave_1", "Alice", SaveType.Quick, 1⟩] := by
  have h := (group_saves_partition_spec
    [⟨"Alice-1_QuickSave_2", "Alice", SaveType.Quick, 2⟩,
     ⟨"Bob-1_AutoSave_7", "Bob", SaveType.Auto, 7⟩,
     ⟨"Alice-1_AutoSave_4", "Alice", SaveType.Auto, 4⟩,
     ⟨"Alice-1_Manual_9", "Alice", SaveType.Unrecognized, 9⟩,
     ⟨"Alice-1_QuickSave_1", "Alice", SaveType.Quick, 1⟩]).1 "Alice"
  exact h.1.trans (by decide)

/-- C10: in every table produced by grouping, and still after the sort
step, every record stored under a key has that key as its
`character_name`. -/
theorem group_key_invariant_spec : ∀ records : List SaveInformation,
    (∀ e ∈ group_saves records, ∀ r : SaveInformation,
      (r ∈ e.2.quick_saves → r.character_name = e.1) ∧
      (r ∈ e.2.auto_saves → r.character_name = e.1)) ∧
    (∀ e ∈ sort_map_saves (group_saves records), ∀ r : SaveInformation,
      (r ∈ e.2.quick_saves → r.character_name = e.1) ∧
      (r ∈ e.2.auto_saves → r.character_name = e.1)) := by
  intro records
  have hinv : groupInv (group_saves records) :=
    groupInv_foldl records [] (by intro e he; cases he)
  constructor
  · intro e he r
    exact ⟨fun h => ((hinv e he r).1 h).2, fun h => ((hinv e he r).2 h).2⟩
  · intro e he r
    rw [sort_map_saves, List.mem_map] at he
    obtain ⟨kv, hkv, hmap⟩ := he
    subst hmap
    constructor
    · intro h
      have hm : r ∈ kv.2.quick_saves := (sortDesc_perm kv.2.quick_saves).mem_iff.mp h
      exact ((hinv kv hkv r).1 hm).2
    · intro h
      have hm : r ∈ kv.2.auto_saves := (sortDesc_perm kv.2.auto_saves).mem_iff.mp h
      exact ((hinv kv hkv r).2 hm).2

/-! ### Claim theorems: sorting, retention selection, confirmation -/

/-- C8: the sort step sorts each group's quick and auto lists
independently by `save_number` descending; the sort is a permutation
(stable: equal-`save_number` records keep their relative input order,
expressed as filter-invariance per sequence number), and distinct
sequence numbers yield a strictly descending result. -/
theorem sort_map_saves_spec :
    (∀ map : List (String × Saves),
      sort_map_saves map =
        map.map fun kv => (kv.1, ⟨sortDesc kv.2.quick_saves, sortDesc kv.2.auto_saves⟩)) ∧
    (∀ l : List SaveInformation,
      (sortDesc l).Pairwise fun a b => b.save_number ≤ a.save_number) ∧
    (∀ l : List SaveInformation, List.Perm (sortDesc l) l) ∧
    (∀ (l : List SaveInformation) (n : Nat),
      (sortDesc l).filter (fun r => r.save_number = n) =
        l.filter (fun r => r.save_number = n)) ∧
    (∀ l : List SaveInformation, (l.map SaveInformation.save_number).Nodup →
      (sortDesc l).Pairwise fun a b => b.save_number < a.save_number) := by
  exact ⟨fun _ => rfl, sortDesc_pairwise, sortDesc_perm, sortDesc_filter_num, sortDesc_strict⟩

/-- Witness for C8 at a concrete three-element list with distinct
sequence numbers. -/
theorem sort_map_saves_spec_witness :
    (sortDesc
        [⟨"Alice-1_QuickSave_1", "Alice", SaveType.Quick, 1⟩,
         ⟨"Alice-1_QuickSave_3", "Alice", SaveType.Quick, 3⟩,
         ⟨"Alice-1_QuickSave_2", "Alice", SaveType.Quick, 2⟩]).Pairwise
      fun a b => b.save_number < a.save_number := by
  exact sort_map_saves_spec.2.2.2.2
    [⟨"Alice-1_QuickSave_1", "Alice", SaveType.Quick, 1⟩,
     ⟨"Alice-1_QuickSave_3", "Alice", SaveType.Quick, 3⟩,
     ⟨"Alice-1_QuickSave_2", "Alice", SaveType.Quick, 2⟩] (by decide)

theorem foldl_append_eq_join {α β : Type} (g : α → List β) :
    ∀ (l : List α) (a : List β),
      l.foldl (fun acc x => acc ++ g x) a = a ++ (l.map g).flatten := by
  intro l
  induction l with
  | nil => intro a; simp
  | cons x rest ih =>
    intro a
    rw [List.foldl_cons, ih, List.map_cons, List.flatten_cons, List.append_assoc]

/-- C1: for every group table and preserve count `p`, the selection is
the concatenation, in map-entry order, of each character's quick-save
candidates followed by its auto-save candidates; each list contributes
its entries after the first `p` (`max(0, L-p)` of them, all of them when
`p = 0`, none when `p ≥ L`), and under the descending sort those are the
lowest-sequence-number entries. -/
theorem get_delete_vec_spec :
    (∀ (map : List (String × Saves)) (p : Nat),
      get_delete_vec map p =
        (map.map fun kv =>
          deletable_saves kv.2.quick_saves p ++ deletable_saves kv.2.auto_saves p).flatten) ∧
    (∀ (l : List SaveInformation) (p : Nat),
      (deletable_saves l p).length = l.length - p) ∧
    (∀ l : List SaveInformation, deletable_saves l 0 = l) ∧
    (∀ (l : List SaveInformation) (p : Nat), l.length ≤ p → deletable_saves l p = []) ∧
    (∀ (l : List SaveInformation) (p : Nat),
      (l.Pairwise fun a b => b.save_number ≤ a.save_number) →
        ∀ x ∈ l.take p, ∀ y ∈ deletable_saves l p, y.save_number ≤ x.save_number) := by
  refine ⟨?_, ?_, ?_, ?_, ?_⟩
  · intro map p
    exact foldl_append_eq_join _ map []
  · intro l p
    exact List.length_drop p l
  · intro l
    exact List.drop_zero l
  · intro l p h
    exact List.drop_eq_nil_of_le h
  · intro l p h x hx y hy
    rw [show l = l.take p ++ l.drop p from (List.take_append_drop p l).symm] at h
    exact (List.pairwise_append.mp h).2.2 x hx y hy

/-- Witness for C1: the spec's end-to-end scenario — three quick saves
with sequence numbers 3, 2, 1 and `preserve = 1` select exactly the
saves numbered 2 and 1; preserving more than the length selects
nothing, and a selected entry never outranks a kept one. -/
theorem get_delete_vec_spec_witness :
    deletable_saves
        [⟨"Alice-1_QuickSave_3", "Alice", SaveType.Quick, 3⟩,
         ⟨"Alice-1_QuickSave_2", "Alice", SaveType.Quick, 2⟩,
         ⟨"Alice-1_QuickSave_1", "Alice", SaveType.Quick, 1⟩] 5 = [] ∧
    (⟨"Alice-1_QuickSave_1", "Alice", SaveType.Quick, 1⟩ :
        SaveInformation).save_number ≤
      (⟨"Alice-1_QuickSave_3", "Alice", SaveType.Quick, 3⟩ :
        SaveInformation).save_number := by
  constructor
  · exact get_delete_vec_spec.2.2.2.1
      [⟨"Alice-1_QuickSave_3", "Alice", SaveType.Quick, 3⟩,
       ⟨"Alice-1_QuickSave_2", "Alice", SaveType.Quick, 2⟩,
       ⟨"Alice-1_QuickSave_1", "Alice", SaveType.Quick, 1⟩] 5 (by decide)
  · exact get_delete_vec_spec.2.2.2.2
      [⟨"Alice-1_QuickSave_3", "Alice", SaveType.Quick, 3⟩,
       ⟨"Alice-1_QuickSave_2", "Alice", SaveType.Quick, 2⟩,
       ⟨"Alice-1_QuickSave_1", "Alice", SaveType.Quick, 1⟩] 1 (by decide)
      ⟨"Alice-1_QuickSave_3", "Alice", SaveType.Quick, 3⟩ (by decide)
      ⟨"Alice-1_QuickSave_1", "Alice", SaveType.Quick, 1⟩ (by decide)

/-- C2: the deletion step deletes only when the trimmed user input
equals "y" case-insensitively; on any other trimmed input — the empty
string, "n" and "Yes" included — it performs zero deletions (the
injected removal function is never consulted) and returns `Ok`. -/
theorem delete_confirmation_spec :
    (∀ (saves : List SaveInformation) (raw : String)
        (remove : String → Except ProgramError Unit),
      eqIgnoreAsciiCase (rustTrim raw) "y" = false →
        delete saves (rustTrim raw) remove = Except.ok []) ∧
    (∀ (saves : List SaveInformation) (input : String)
        (remove : String → Except ProgramError Unit),
      eqIgnoreAsciiCase input "y" = true →
        delete saves input remove = saves.mapM fun si => remove si.file_name) ∧
    (rustTrim "" = "" ∧ eqIgnoreAsciiCase "" "y" = false) ∧
    (eqIgnoreAsciiCase "n" "y" = false ∧ eqIgnoreAsciiCase "Yes" "y" = false) ∧
    eqIgnoreAsciiCase "Y" "y" = true := by
  refine ⟨?_, ?_, ⟨by decide, by decide⟩, ⟨by decide, by decide⟩, by decide⟩
  · intro saves raw remove h
    simp [delete, h]
  · intro saves input remove h
    simp [delete, h]

/-- Witness for C2: with the trimmed input "Yes" and a removal function
that always fails, deletion still returns `Ok` with nothing deleted. -/
theorem delete_confirmation_spec_witness :
    delete [⟨"Alice-1_QuickSave_1", "Alice", SaveType.Quick, 1⟩] (rustTrim "Yes")
      (fun _ => Except.error (ProgramError.FailedToDelete "always")) = Except.ok [] := by
  exact delete_confirmation_spec.1
    [⟨"Alice-1_QuickSave_1", "Alice", SaveType.Quick, 1⟩] "Yes"
    (fun _ => Except.error (ProgramError.FailedToDelete "always")) (by decide)

/-- Witness for C10: in the table grouped from a single Alice record,
the stored record's `character_name` equals its key "Alice". -/
theorem group_key_invariant_spec_witness :
    (⟨"Alice-1_QuickSave_1", "Alice", SaveType.Quick, 1⟩ :
      SaveInformation).character_name = "Alice" := by
  exact ((group_key_invariant_spec
      [⟨"Alice-1_QuickSave_1", "Alice", SaveType.Quick, 1⟩]).1
    ("Alice", ⟨[⟨"Alice-1_QuickSave_1", "Alice", SaveType.Quick, 1⟩], []⟩)
    (by decide)
    ⟨"Alice-1_QuickSave_1", "Alice", SaveType.Quick, 1⟩).1 (by decide)
